import Mathlib

/-!
Verification of the WhatsApp chat analyzer core (chat_analyzer.py, ai_formatter.py).

Strings are modelled as `List Char` (Python `str`).  A transcript is a list of
physical lines, each given without its trailing newline character (Python's
file iteration yields lines ending in `'\n'`; every use in `ChatParser.parse`
first right-strips or strips the line, so the two presentations agree).
Character classes (`\d`, `\w`, `\s`) and `str.lower`/`str.strip` are modelled
over ASCII, which covers every literal the source patterns use.
-/

/-- Python whitespace for `str.strip` / `\s` (ASCII range). -/
def isPyWs (c : Char) : Bool :=
  c = ' ' || c = '\t' || c = '\n' || c = '\r' || c = '\x0b' || c = '\x0c'

/-- ASCII decimal digit, the `\d` class. -/
def isAsciiDigit (c : Char) : Bool :=
  '0' ≤ c && c ≤ '9'

/-- The `\w` class: ASCII letters, digits and underscore. -/
def isWordChar (c : Char) : Bool :=
  ('a' ≤ c && c ≤ 'z') || ('A' ≤ c && c ≤ 'Z') || isAsciiDigit c || c = '_'

/-- ASCII lowercasing of one character (Python `str.lower`). -/
def toLowerChar (c : Char) : Char :=
  if 'A' ≤ c && c ≤ 'Z' then Char.ofNat (c.toNat + 32) else c

/-- Python `str.lower`. -/
def toLowerPy (s : List Char) : List Char :=
  s.map toLowerChar

/-- Python `str.rstrip()`. -/
def pyRstrip (s : List Char) : List Char :=
  (s.reverse.dropWhile isPyWs).reverse

/-- Python `str.strip()`. -/
def pyStrip (s : List Char) : List Char :=
  pyRstrip (s.dropWhile isPyWs)

/-- Python `str.split('\n')`. -/
def splitNl : List Char → List (List Char)
  | [] => [[]]
  | '\n' :: rest => [] :: splitNl rest
  | c :: rest =>
    match splitNl rest with
    | h :: t => (c :: h) :: t
    | [] => [[c]]

/-- Python `needle in hay` for strings (substring containment). -/
def containsSub (needle : List Char) : List Char → Bool
  | [] => needle.isEmpty
  | c :: rest => needle.isPrefixOf (c :: rest) || containsSub needle rest

/-- Python `s.replace(pat, '')`, fuelled: removes every non-overlapping
occurrence of `pat`, scanning left to right.  Each step consumes at least one
character, so fuel equal to the string length (as supplied by `replaceAll`)
never runs out. -/
def replaceAllFuel (pat : List Char) : Nat → List Char → List Char
  | 0, s => s
  | _, [] => []
  | fuel + 1, c :: rest =>
    if pat ≠ [] ∧ pat.isPrefixOf (c :: rest) then
      replaceAllFuel pat fuel ((c :: rest).drop pat.length)
    else
      c :: replaceAllFuel pat fuel rest

/-- Python `s.replace(pat, '')`.  (Only ever applied with a nonempty `pat`;
for `pat = []` this is the identity, where Python would interleave.) -/
def replaceAll (pat s : List Char) : List Char :=
  replaceAllFuel pat s.length s

/-! ## Message records and `ChatParser.parse` (chat_analyzer.py lines 14-86) -/

/-- One parsed chat message (the dict built in `ChatParser.parse`). -/
structure Message where
  timestamp : List Char
  sender : List Char
  content : List Char
  date : List Char
  time : List Char
deriving DecidableEq, Repr

/-- `ChatParser._extract_date`: `timestamp.split(',')[0].strip()`.
Matched timestamps contain exactly one comma, where this agrees with Python. -/
def extractDate (ts : List Char) : List Char :=
  pyStrip (ts.takeWhile (fun c => c != ','))

/-- `ChatParser._extract_time`: `timestamp.split(',')[1].strip()`.
Matched timestamps contain exactly one comma, where this agrees with Python. -/
def extractTime (ts : List Char) : List Char :=
  pyStrip ((ts.dropWhile (fun c => c != ',')).drop 1)

/-- `re.match` of `TIMESTAMP_PATTERN = r'\[(\d{2}/\d{2}/\d{4}, \d{2}:\d{2}(?::\d{2})?)\]'`
against the start of a line.  Returns `group(1)` (the bracket interior) and the
suffix of the line after `match.end()`.  The optional seconds group is greedy;
with or without it the next character must be `]`, so the match is
deterministic. -/
def matchTimestamp (s : List Char) : Option (List Char × List Char) :=
  match s with
  | '[' :: d1 :: d2 :: '/' :: m1 :: m2 :: '/' :: y1 :: y2 :: y3 :: y4 :: ',' :: ' ' ::
      h1 :: h2 :: ':' :: n1 :: n2 :: rest =>
    if [d1, d2, m1, m2, y1, y2, y3, y4, h1, h2, n1, n2].all isAsciiDigit then
      match rest with
      | ':' :: s1 :: s2 :: ']' :: rest2 =>
        if isAsciiDigit s1 && isAsciiDigit s2 then
          some ([d1, d2, '/', m1, m2, '/', y1, y2, y3, y4, ',', ' ',
                 h1, h2, ':', n1, n2, ':', s1, s2], rest2)
        else none
      | ']' :: rest2 =>
        some ([d1, d2, '/', m1, m2, '/', y1, y2, y3, y4, ',', ' ',
               h1, h2, ':', n1, n2], rest2)
      | _ => none
    else none
  | _ => none

/-- A line whose prefix matches the timestamp-marker pattern. -/
def isMarker (line : List Char) : Bool :=
  (matchTimestamp line).isSome

/-- Backtracking start position of `(.+)` after `\s*` in the sender pattern:
the largest `k` not exceeding the whitespace-run length such that the
character at `k` exists and is not a newline (`.` does not match `'\n'`). -/
def backtrackStart (after : List Char) : Nat → Option Nat
  | 0 =>
    match after.get? 0 with
    | some c => if c != '\n' then some 0 else none
    | none => none
  | k + 1 =>
    match after.get? (k + 1) with
    | some c => if c != '\n' then some (k + 1) else backtrackStart after k
    | none => backtrackStart after k

/-- `re.match(r'^([^:]+?):\s*(.+)', remainder)`: group 1 is the (nonempty)
text before the first colon, group 2 starts after the colon at the greatest
whitespace-skip position from which `.+` can match, and extends to the next
newline or the end. -/
def senderMatch (r : List Char) : Option (List Char × List Char) :=
  let pre := r.takeWhile (fun c => c != ':')
  if pre.isEmpty then none
  else
    match r.drop pre.length with
    | ':' :: after =>
      match backtrackStart after (after.takeWhile isPyWs).length with
      | some k => some (pre, (after.drop k).takeWhile (fun c => c != '\n'))
      | none => none
    | _ => none

/-- Lines 42-68 of `ChatParser.parse`: build the new `current_message` from a
line whose prefix matched the timestamp pattern (`none` otherwise). -/
def startMessage? (line : List Char) : Option Message :=
  match matchTimestamp line with
  | none => none
  | some (ts, rest) =>
    let remainder := pyStrip rest
    match senderMatch remainder with
    | some (g1, g2) =>
      some { timestamp := ts, sender := pyStrip g1, content := pyStrip g2,
             date := extractDate ts, time := extractTime ts }
    | none =>
      some { timestamp := ts, sender := "SYSTEM".data, content := remainder,
             date := extractDate ts, time := extractTime ts }

/-- Line 72: `current_message['content'] += '\n' + line.rstrip()`. -/
def appendCont (m : Message) (line : List Char) : Message :=
  { m with content := m.content ++ '\n' :: pyRstrip line }

/-- The per-line loop of `ChatParser.parse` with `current_message` as state. -/
def parseAux (cur : Option Message) : List (List Char) → List Message
  | [] => cur.toList
  | line :: rest =>
    match startMessage? line with
    | some m => cur.toList ++ parseAux (some m) rest
    | none =>
      match cur with
      | some m => parseAux (some (appendCont m line)) rest
      | none => parseAux none rest

/-- `ChatParser.parse` on the list of physical lines of the transcript. -/
def parse (lines : List (List Char)) : List Message :=
  parseAux none lines

/-! ## `AIMarkdownFormatter._parse_date` (ai_formatter.py lines 150-162) -/

/-- The date part of a Python `datetime` value produced by `_parse_date`
(the time-of-day components are always zero there). -/
structure Date where
  year : Nat
  month : Nat
  day : Nat
deriving DecidableEq, Repr

/-- `datetime` comparison restricted to dates (lexicographic). -/
def dateLt (a b : Date) : Bool :=
  a.year < b.year ||
    (a.year = b.year && (a.month < b.month || (a.month = b.month && a.day < b.day)))

/-- Gregorian leap-year rule used by `datetime`. -/
def isLeap (y : Nat) : Bool :=
  y % 4 = 0 && (y % 100 ≠ 0 || y % 400 = 0)

/-- Number of days of month `m` in year `y` (as `datetime` validates). -/
def daysInMonth (y m : Nat) : Nat :=
  if m = 2 then (if isLeap y then 29 else 28)
  else if m = 4 || m = 6 || m = 9 || m = 11 then 30
  else 31

/-- Numeric value of a digit string. -/
def digitsVal (ds : List Char) : Nat :=
  ds.foldl (fun a c => a * 10 + (c.toNat - 48)) 0

/-- `datetime.strptime(s, '%d/%m/%Y')` as an `Option` (Python raises
`ValueError` where this returns `none`).  CPython's `%d`/`%m` accept one or
two digits in range, `%Y` exactly four digits; the whole string must be
consumed, and the day must exist in the given month and the year be positive. -/
def strptimeDMY (s : List Char) : Option Date :=
  let ds := s.takeWhile isAsciiDigit
  match s.drop ds.length with
  | '/' :: r2 =>
    let ms := r2.takeWhile isAsciiDigit
    match r2.drop ms.length with
    | '/' :: r3 =>
      let ys := r3.takeWhile isAsciiDigit
      let d := digitsVal ds
      let m := digitsVal ms
      let y := digitsVal ys
      if r3.drop ys.length = [] && ys.length = 4 &&
          1 ≤ ds.length && ds.length ≤ 2 && 1 ≤ d && d ≤ 31 &&
          1 ≤ ms.length && ms.length ≤ 2 && 1 ≤ m && m ≤ 12 &&
          1 ≤ y && d ≤ daysInMonth y m then
        some ⟨y, m, d⟩
      else none
    | _ => none
  | _ => none

/-- `datetime.strptime(s, '%Y-%m-%d')` as an `Option`, same conventions. -/
def strptimeYMD (s : List Char) : Option Date :=
  let ys := s.takeWhile isAsciiDigit
  match s.drop ys.length with
  | '-' :: r2 =>
    let ms := r2.takeWhile isAsciiDigit
    match r2.drop ms.length with
    | '-' :: r3 =>
      let ds := r3.takeWhile isAsciiDigit
      let d := digitsVal ds
      let m := digitsVal ms
      let y := digitsVal ys
      if r3.drop ds.length = [] && ys.length = 4 &&
          1 ≤ ds.length && ds.length ≤ 2 && 1 ≤ d && d ≤ 31 &&
          1 ≤ ms.length && ms.length ≤ 2 && 1 ≤ m && m ≤ 12 &&
          1 ≤ y && d ≤ daysInMonth y m then
        some ⟨y, m, d⟩
      else none
    | _ => none
  | _ => none

/-- The sentinel `datetime(2099, 12, 31)` returned for unparseable input. -/
def farFuture : Date :=
  ⟨2099, 12, 31⟩

/-- `AIMarkdownFormatter._parse_date`: try `%d/%m/%Y`, then `%Y-%m-%d`, then
fall back to the far-future sentinel.  The bare `except:` handlers make the
Python function total, which is modelled by this being a total function. -/
def parseDate (s : List Char) : Date :=
  match strptimeDMY s with
  | some d => d
  | none =>
    match strptimeYMD s with
    | some d => d
    | none => farFuture

/-! ## Candidate records and `CandidateExtractor` (chat_analyzer.py lines 89-338) -/

/-- One context entry built in `_extract_urls` (sender, truncated content, time). -/
structure CtxEntry where
  sender : List Char
  content : List Char
  time : List Char
deriving DecidableEq, Repr

/-- A candidate dict.  Python candidates are dicts with category-specific key
sets; fields a category does not set are modelled as `none` / `[]`.
`ctype` is the `'type'` key. -/
structure Candidate where
  timestamp : List Char
  date : List Char
  time : List Char
  sender : List Char
  content : Option (List Char) := none
  matchedPattern : Option (List Char) := none
  ctype : List Char
  url : Option (List Char) := none
  description : Option (List Char) := none
  fullMessage : Option (List Char) := none
  contextBefore : List CtxEntry := []
  contextAfter : List CtxEntry := []
  score : Option (List Char) := none
  mentions : List (List Char) := []
  assignedTo : List (List Char) := []
deriving DecidableEq, Repr

/-- The apostrophe character (appears in two decision-pattern literals). -/
def apos : Char :=
  Char.ofNat 39

/-- `re.search` position scan: try the at-position matcher `f` at every
position from left to right (`f` receives the preceding character for `\b`),
including the end-of-string position. -/
def scanSearch (f : Option Char → List Char → Bool) : Option Char → List Char → Bool
  | prev, [] => f prev []
  | prev, c :: rest => f prev (c :: rest) || scanSearch f (some c) rest

/-- Case-insensitive prefix test against a lowercase literal (`re.IGNORECASE`). -/
def ciStarts : List Char → List Char → Bool
  | [], _ => true
  | _ :: _, [] => false
  | p :: ps, c :: cs => (toLowerChar c == p) && ciStarts ps cs

/-- `\b` before a position, given the preceding character (the following
character is a word character in every alternative tested). -/
def boundaryBefore : Option Char → Bool
  | none => true
  | some c => !isWordChar c

/-- `\b` after a match, given the rest of the string. -/
def boundaryAfter : List Char → Bool
  | [] => true
  | c :: _ => !isWordChar c

/-- One literal alternative of a `\b(...)\b` group at a position: the literal
(case-insensitively) followed by a word boundary. -/
def litAlt (lit : List Char) (s : List Char) : Bool :=
  ciStarts lit s && boundaryAfter (s.drop lit.length)

/-- A `pre\w+day` alternative (`by \w+day` / `before \w+day`) at a position:
the literal prefix, then a maximal word-character run of length at least 4
ending in `day` (the closing `\b` forces the match to end at the run's end). -/
def wdayAlt (pre : List Char) (s : List Char) : Bool :=
  ciStarts pre s &&
    (let run := (s.drop pre.length).takeWhile isWordChar
     decide (4 ≤ run.length) && ((run.drop (run.length - 3)).map toLowerChar == ['d', 'a', 'y']))

/-- `re.search` of a `\b(alt|...)\b` pattern given the at-position alternative
testers (each tester checks its own trailing context). -/
def altsSearch (alts : List (List Char → Bool)) (content : List Char) : Bool :=
  scanSearch (fun prev s => boundaryBefore prev && alts.any (fun a => a s)) none content

/-- `re.search(r'@\w+', content)`: an `@` followed by a word character. -/
def mentionSearch (content : List Char) : Bool :=
  scanSearch
    (fun _ s =>
      match s with
      | '@' :: c :: _ => isWordChar c
      | _ => false)
    none content

/-- `re.search(r'^\s*[\d\-\*•]\s+', content)`: without `re.MULTILINE` the `^`
anchors at the start of the string only. -/
def listItemSearch (content : List Char) : Bool :=
  match content.dropWhile isPyWs with
  | c :: rest =>
    (isAsciiDigit c || c = '-' || c = '*' || c = '•') &&
      (match rest with
       | d :: _ => isPyWs d
       | [] => false)
  | [] => false

/-- `re.search(r'zoom\.us', content, re.IGNORECASE)`: plain substring, no `\b`. -/
def zoomUsSearch (content : List Char) : Bool :=
  scanSearch (fun _ s => ciStarts "zoom.us".data s) none content

/-- A compiled rule: the regex source string recorded as `matched_pattern`,
and its search function. -/
structure Pat where
  src : List Char
  test : List Char → Bool

/-- `for pattern in patterns: if re.search(pattern, content, re.IGNORECASE): ... break` —
the first pattern of the list that matches anywhere, if any. -/
def firstMatch (pats : List Pat) (content : List Char) : Option (List Char) :=
  match pats.find? (fun p => p.test content) with
  | some p => some p.src
  | none => none

/-- The `action_patterns` list (lines 116-124). -/
def actionPatterns : List Pat :=
  [ ⟨"@\\w+".data, mentionSearch⟩,
    ⟨"\\b(can you|could you|please|need to|have to|should|must)\\b".data,
      altsSearch (["can you", "could you", "please", "need to", "have to",
        "should", "must"].map (fun l => litAlt l.data))⟩,
    ⟨"\\b(task|action|todo|assignment|deliverable)\\b".data,
      altsSearch (["task", "action", "todo", "assignment", "deliverable"].map
        (fun l => litAlt l.data))⟩,
    ⟨"\\b(by \\w+day|by EOD|before|deadline|due)\\b".data,
      altsSearch ([wdayAlt "by ".data] ++ (["by eod", "before", "deadline", "due"].map
        (fun l => litAlt l.data)))⟩,
    ⟨"^\\s*[\\d\\-\\*•]\\s+".data, listItemSearch⟩,
    ⟨"\\b(will|going to|planning to|need to)\\b".data,
      altsSearch (["will", "going to", "planning to", "need to"].map
        (fun l => litAlt l.data))⟩,
    ⟨"\\b(create|make|build|develop|design|write|research|investigate|review)\\b".data,
      altsSearch (["create", "make", "build", "develop", "design", "write",
        "research", "investigate", "review"].map (fun l => litAlt l.data))⟩ ]

/-- The `decision_patterns` list (lines 206-210); the second pattern's source
contains escaped apostrophes. -/
def decisionPatterns : List Pat :=
  [ ⟨"\\b(decided|decision|agreed|settled on|chose|selected|going with)\\b".data,
      altsSearch (["decided", "decision", "agreed", "settled on", "chose",
        "selected", "going with"].map (fun l => litAlt l.data))⟩,
    ⟨"\\b(let\\".data ++ [apos] ++ "s|we should|we will|we\\".data ++ [apos] ++
        "re going to)\\b".data,
      altsSearch [litAlt ("let".data ++ [apos] ++ "s".data),
        litAlt "we should".data, litAlt "we will".data,
        litAlt ("we".data ++ [apos] ++ "re going to".data)]⟩,
    ⟨"\\b(approved|confirmed|finalized|locked in)\\b".data,
      altsSearch (["approved", "confirmed", "finalized", "locked in"].map
        (fun l => litAlt l.data))⟩ ]

/-- The `meeting_patterns` list (lines 245-249). -/
def meetingPatterns : List Pat :=
  [ ⟨"\\b(meeting|call|zoom|session)\\b".data,
      altsSearch (["meeting", "call", "zoom", "session"].map (fun l => litAlt l.data))⟩,
    ⟨"\\b(agenda|minutes)\\b".data,
      altsSearch (["agenda", "minutes"].map (fun l => litAlt l.data))⟩,
    ⟨"zoom\\.us".data, zoomUsSearch⟩ ]

/-- The `deadline_patterns` list (lines 269-273). -/
def deadlinePatterns : List Pat :=
  [ ⟨"\\b(by \\w+day|by EOD|by end of|before \\w+day)\\b".data,
      altsSearch [wdayAlt "by ".data, litAlt "by eod".data, litAlt "by end of".data,
        wdayAlt "before ".data]⟩,
    ⟨"\\b(deadline|due date|due by)\\b".data,
      altsSearch (["deadline", "due date", "due by"].map (fun l => litAlt l.data))⟩,
    ⟨"\\b(today|tomorrow|next week|this week)\\b".data,
      altsSearch (["today", "tomorrow", "next week", "this week"].map
        (fun l => litAlt l.data))⟩ ]

/-- The question-word pattern of `_extract_questions` (line 233). -/
def questionWordSearch (content : List Char) : Bool :=
  altsSearch (["what", "why", "how", "when", "where", "who", "which"].map
    (fun l => litAlt l.data)) content

/-- A character allowed inside a URL token: the complement of the class
excluded by `url_pattern = r'https?://[^\s<>"{}|\\^`\[\]]+'`.
The brace and backtick members are written by code point. -/
def isUrlChar (c : Char) : Bool :=
  !(isPyWs c || c = '<' || c = '>' || c = '"' || c = '\x7b' || c = '\x7d' ||
    c = '|' || c = '\\' || c = '^' || c = '\x60' || c = '[' || c = ']')

/-- Match the URL pattern at the current position: `http`, optional greedy `s`,
`://`, then a maximal nonempty run of URL characters.  Returns the token and
the rest of the string after the match. -/
def matchUrlAt (s : List Char) : Option (List Char × List Char) :=
  match s with
  | 'h' :: 't' :: 't' :: 'p' :: rest =>
    match rest with
    | 's' :: ':' :: '/' :: '/' :: r2 =>
      let run := r2.takeWhile isUrlChar
      if run.isEmpty then none
      else some ("https://".data ++ run, r2.drop run.length)
    | ':' :: '/' :: '/' :: r2 =>
      let run := r2.takeWhile isUrlChar
      if run.isEmpty then none
      else some ("http://".data ++ run, r2.drop run.length)
    | _ => none
  | _ => none

/-- `re.findall(url_pattern, content)`, fuelled: scan left to right, emit
each match and resume after its end.  A match consumes at least one
character, so fuel equal to the string length (as supplied by `findUrls`)
never runs out. -/
def findUrlsFuel : Nat → List Char → List (List Char)
  | 0, _ => []
  | _, [] => []
  | fuel + 1, c :: rest =>
    match matchUrlAt (c :: rest) with
    | some (url, after) => url :: findUrlsFuel fuel after
    | none => findUrlsFuel fuel rest

/-- `re.findall(url_pattern, content)`. -/
def findUrls (s : List Char) : List (List Char) :=
  findUrlsFuel s.length s

/-- Lines 178-185: the `description` of a URL message — the first content line
containing `u`, with every occurrence of `u` removed and then stripped;
empty if no line contains `u`. -/
def descriptionFor (content u : List Char) : List Char :=
  match (splitNl content).find? (fun line => containsSub u line) with
  | some line => pyStrip (replaceAll u line)
  | none => []

/-- One iteration of the `_extract_urls` loop at index `i` (lines 152-199):
the URL candidates contributed by message `i`, with up to two non-system
neighbours on each side as context (content truncated to 200 characters) and
the shared description derived from the first URL. -/
def urlCandsAt (msgs : List Message) (i : Nat) : List Candidate :=
  match msgs.get? i with
  | none => []
  | some msg =>
    match findUrls msg.content with
    | [] => []
    | u0 :: us =>
      let ctxOf : Nat → Option CtxEntry := fun j =>
        (msgs.get? j).bind (fun mj =>
          if mj.sender = "SYSTEM".data then none
          else some ⟨mj.sender, mj.content.take 200, mj.time⟩)
      let ctxBefore := (List.range' (i - 2) (i - (i - 2))).filterMap ctxOf
      let ctxAfter := (List.range' (i + 1) (min msgs.length (i + 3) - (i + 1))).filterMap ctxOf
      let desc := descriptionFor msg.content u0
      (u0 :: us).map (fun url =>
        { timestamp := msg.timestamp, date := msg.date, time := msg.time,
          sender := msg.sender, url := some url, description := some desc,
          fullMessage := some msg.content, contextBefore := ctxBefore,
          contextAfter := ctxAfter, ctype := "url".data })

/-- `CandidateExtractor._extract_urls`: the loop `for i, msg in enumerate(...)`
appending each message's URL candidates in order. -/
def extractUrls (msgs : List Message) : List Candidate :=
  (List.range msgs.length).flatMap (urlCandsAt msgs)

/-- `re.findall(r'@(\w+)', content)`, fuelled: each `@` followed by a maximal
nonempty word-character run; the scan resumes after each match.  Fuel equal
to the string length (as supplied by `findMentions`) never runs out. -/
def findMentionsFuel : Nat → List Char → List (List Char)
  | 0, _ => []
  | _, [] => []
  | fuel + 1, '@' :: rest =>
    let run := rest.takeWhile isWordChar
    if run.isEmpty then findMentionsFuel fuel rest
    else run :: findMentionsFuel fuel (rest.drop run.length)
  | fuel + 1, _ :: rest => findMentionsFuel fuel rest

/-- `re.findall(r'@(\w+)', content)`. -/
def findMentions (s : List Char) : List (List Char) :=
  findMentionsFuel s.length s

/-- The alternation `(?:to|will|can you|please)` (case-sensitive, no trailing
`\b`), tried in order; returns the last character of the matched literal (for
the resumed scan's boundary state) and the rest after the match. -/
def assignAltFinish (s : List Char) : Option (Char × List Char) :=
  if "to".data.isPrefixOf s then some ('o', s.drop 2)
  else if "will".data.isPrefixOf s then some ('l', s.drop 4)
  else if "can you".data.isPrefixOf s then some ('u', s.drop 7)
  else if "please".data.isPrefixOf s then some ('e', s.drop 6)
  else none

/-- ASCII uppercase letter, the `[A-Z]` class. -/
def isUpperAZ (c : Char) : Bool :=
  'A' ≤ c && c ≤ 'Z'

/-- ASCII lowercase letter, the `[a-z]` class. -/
def isLowerAZ (c : Char) : Bool :=
  'a' ≤ c && c ≤ 'z'

/-- `\s+` then the assignment alternation: maximal nonempty whitespace run,
then `assignAltFinish` (shorter whitespace runs can never help, since no
alternative starts with whitespace). -/
def assignTail (s : List Char) : Option (Char × List Char) :=
  let ws := s.takeWhile isPyWs
  if ws.isEmpty then none else assignAltFinish (s.drop ws.length)

/-- The optional second-name group `(?:\s+[A-Z][a-z]+)?` followed by the rest
of the assignment pattern, applied after the first name (`c`, `run1`) at the
remaining input `pos`. -/
def assignSecond (c : Char) (run1 pos : List Char) : Option (List Char × Char × List Char) :=
  let ws1 := pos.takeWhile isPyWs
  if ws1.isEmpty then none
  else
    match pos.drop ws1.length with
    | d :: trest =>
      if isUpperAZ d then
        let run2 := trest.takeWhile isLowerAZ
        if run2.isEmpty then none
        else
          match assignTail (trest.drop run2.length) with
          | some (lc, rest') => some (c :: run1 ++ ws1 ++ d :: run2, lc, rest')
          | none => none
      else none
    | [] => none

/-- The pattern `\b([A-Z][a-z]+(?:\s+[A-Z][a-z]+)?)\s+(?:to|will|can you|please)`
at the current position (given the preceding character for `\b`).  The greedy
optional second-name group is tried first and dropped whole on failure; every
`[a-z]+`/`\s+` run is maximal because shrinking one leaves a character the
next pattern element cannot match.  Returns `group(1)`, the final character of
the match and the rest after the match. -/
def assignAt (prev : Option Char) (s : List Char) : Option (List Char × Char × List Char) :=
  if !boundaryBefore prev then none
  else
    match s with
    | c :: rest =>
      if isUpperAZ c then
        let run1 := rest.takeWhile isLowerAZ
        if run1.isEmpty then none
        else
          match assignSecond c run1 (rest.drop run1.length) with
          | some res => some res
          | none =>
            match assignTail (rest.drop run1.length) with
            | some (lc, rest') => some (c :: run1, lc, rest')
            | none => none
      else none
    | [] => none

/-- `re.findall(r'\b([A-Z][a-z]+(?:\s+[A-Z][a-z]+)?)\s+(?:to|will|can you|please)', content)`,
fuelled: scan left to right carrying the previous character for `\b`, emit
`group(1)` of each match and resume after its end.  A match consumes at
least one character, so fuel equal to the string length (as supplied by
`findAssigns`) never runs out. -/
def findAssignsFuel : Nat → Option Char → List Char → List (List Char)
  | 0, _, _ => []
  | _, _, [] => []
  | fuel + 1, prev, c :: rest =>
    match assignAt prev (c :: rest) with
    | some (g, lc, after) => g :: findAssignsFuel fuel (some lc) after
    | none => findAssignsFuel fuel (some c) rest

/-- `re.findall` of the capitalized-name assignment pattern. -/
def findAssigns (prev : Option Char) (s : List Char) : List (List Char) :=
  findAssignsFuel s.length prev s

/-- First alternative `(\d+)/10` of the check-in score pattern at a position:
a maximal nonempty digit run (group) followed by `/10`. -/
def scoreAlt1 (s : List Char) : Option (List Char) :=
  let ds := s.takeWhile isAsciiDigit
  if ds.isEmpty then none
  else
    match s.drop ds.length with
    | '/' :: '1' :: '0' :: _ => some ds
    | _ => none

/-- Second alternative `[-•]\s*(\d+)(?:\s*\(|$)` at a position: a dash or
bullet, maximal whitespace, a maximal nonempty digit run (group), then either
maximal whitespace and `(`, or the end of the whole string (`$` also matches
just before a final newline). -/
def scoreAlt2 (s : List Char) : Option (List Char) :=
  match s with
  | c :: rest =>
    if c = '-' || c = '•' then
      let afterWs := rest.dropWhile isPyWs
      let ds := afterWs.takeWhile isAsciiDigit
      if ds.isEmpty then none
      else
        let tail := afterWs.drop ds.length
        match tail.dropWhile isPyWs with
        | '(' :: _ => some ds
        | _ => if tail = [] || tail = ['\n'] then some ds else none
    else none
  | [] => none

/-- Third alternative `mood[\s:]+(\d+)` at a position: the literal `mood`,
a maximal nonempty run of whitespace-or-colon, then a maximal nonempty digit
run (group). -/
def scoreAlt3 (s : List Char) : Option (List Char) :=
  match s with
  | 'm' :: 'o' :: 'o' :: 'd' :: rest =>
    let sep := rest.takeWhile (fun c => isPyWs c || c = ':')
    if sep.isEmpty then none
    else
      let ds := (rest.drop sep.length).takeWhile isAsciiDigit
      if ds.isEmpty then none else some ds
  | _ => none

/-- `re.search(r'(?:(\d+)/10|[-•]\s*(\d+)(?:\s*\(|$)|mood[\s:]+(\d+))', content)`
followed by `group(1) or group(2) or group(3)`: scan positions left to right,
try the three alternatives in order at each, and return the digit group of
the first match. -/
def searchScore : List Char → Option (List Char)
  | [] => none
  | c :: rest =>
    match scoreAlt1 (c :: rest) with
    | some ds => some ds
    | none =>
      match scoreAlt2 (c :: rest) with
      | some ds => some ds
      | none =>
        match scoreAlt3 (c :: rest) with
        | some ds => some ds
        | none => searchScore rest

/-- The check-in keyword list of `_extract_checkins` (lines 319-321). -/
def checkinKeywords : List (List Char) :=
  ["check in".data, "checkin".data, "check-in".data, "mood".data]

/-- `any(keyword in content for keyword in [...])`. -/
def hasCheckinKeyword (content : List Char) : Bool :=
  checkinKeywords.any (fun k => containsSub k content)

/-! ## The eight extractors and the dispatch (`CandidateExtractor`) -/

/-- Candidate `{**msg, 'matched_pattern': pattern, 'type': ty}` for the
pattern-list categories. -/
def mkPatCand (m : Message) (pat : List Char) (ty : List Char) : Candidate :=
  { timestamp := m.timestamp, date := m.date, time := m.time, sender := m.sender,
    content := some m.content, matchedPattern := some pat, ctype := ty }

/-- Loop body of `_extract_actions` (lines 127-142): skip system senders, then
first matching pattern wins. -/
def actionRule (m : Message) : Option Candidate :=
  if m.sender = "SYSTEM".data then none
  else (firstMatch actionPatterns (toLowerPy m.content)).map
    (fun p => mkPatCand m p "action".data)

/-- `CandidateExtractor._extract_actions`: the append loop over messages. -/
def extractActions (msgs : List Message) : List Candidate :=
  msgs.filterMap actionRule

/-- Loop body of `_extract_decisions` (lines 213-223); no system-sender skip. -/
def decisionRule (m : Message) : Option Candidate :=
  (firstMatch decisionPatterns (toLowerPy m.content)).map
    (fun p => mkPatCand m p "decision".data)

/-- `CandidateExtractor._extract_decisions`. -/
def extractDecisions (msgs : List Message) : List Candidate :=
  msgs.filterMap decisionRule

/-- Loop body of `_extract_questions` (lines 231-238): a question mark
anywhere, or an interrogative word; the content is not lowercased and no
`matched_pattern` is recorded. -/
def questionRule (m : Message) : Option Candidate :=
  if m.content.contains '?' || questionWordSearch m.content then
    some { timestamp := m.timestamp, date := m.date, time := m.time,
           sender := m.sender, content := some m.content, ctype := "question".data }
  else none

/-- `CandidateExtractor._extract_questions`. -/
def extractQuestions (msgs : List Message) : List Candidate :=
  msgs.filterMap questionRule

/-- Loop body of `_extract_meetings` (lines 252-262). -/
def meetingRule (m : Message) : Option Candidate :=
  (firstMatch meetingPatterns (toLowerPy m.content)).map
    (fun p => mkPatCand m p "meeting".data)

/-- `CandidateExtractor._extract_meetings`. -/
def extractMeetings (msgs : List Message) : List Candidate :=
  msgs.filterMap meetingRule

/-- Loop body of `_extract_deadlines` (lines 276-286). -/
def deadlineRule (m : Message) : Option Candidate :=
  (firstMatch deadlinePatterns (toLowerPy m.content)).map
    (fun p => mkPatCand m p "deadline".data)

/-- `CandidateExtractor._extract_deadlines`. -/
def extractDeadlines (msgs : List Message) : List Candidate :=
  msgs.filterMap deadlineRule

/-- Loop body of `_extract_assignments` (lines 294-307): `@(\w+)` mentions and
capitalized-name assignment matches on the raw content; a candidate is
emitted when either list is nonempty. -/
def assignmentRule (m : Message) : Option Candidate :=
  let ms := findMentions m.content
  let asg := findAssigns none m.content
  if !ms.isEmpty || !asg.isEmpty then
    some { timestamp := m.timestamp, date := m.date, time := m.time,
           sender := m.sender, content := some m.content,
           mentions := ms, assignedTo := asg, ctype := "assignment".data }
  else none

/-- `CandidateExtractor._extract_assignments`. -/
def extractAssignments (msgs : List Message) : List Candidate :=
  msgs.filterMap assignmentRule

/-- Candidate `{**msg, 'score': score, 'type': 'checkin'}`. -/
def mkCheckinCand (m : Message) (sc : List Char) : Candidate :=
  { timestamp := m.timestamp, date := m.date, time := m.time, sender := m.sender,
    content := some m.content, score := some sc, ctype := "checkin".data }

/-- Loop body of `_extract_checkins` (lines 315-336): requires a check-in
keyword and a score-pattern match on the lowercased content; the score is the
digit group of the match. -/
def checkinRule (m : Message) : Option Candidate :=
  let content := toLowerPy m.content
  if hasCheckinKeyword content then
    match searchScore content with
    | some sc => some (mkCheckinCand m sc)
    | none => none
  else none

/-- `CandidateExtractor._extract_checkins`. -/
def extractCheckins (msgs : List Message) : List Candidate :=
  msgs.filterMap checkinRule

/-- The `self.extractors` dict (lines 94-103), in insertion order. -/
def extractors : List (String × (List Message → List Candidate)) :=
  [ ("actions", extractActions),
    ("urls", extractUrls),
    ("decisions", extractDecisions),
    ("questions", extractQuestions),
    ("meetings", extractMeetings),
    ("deadlines", extractDeadlines),
    ("assignments", extractAssignments),
    ("checkins", extractCheckins) ]

/-- `list(self.extractors.keys())`, as interpolated into the error message. -/
def extractorKeys : List String :=
  extractors.map Prod.fst

/-- The `ValueError` of `CandidateExtractor.extract` (line 109): its message
is built from the unknown query type and the list of valid keys. -/
inductive ExtractError where
  | unknownQueryType (queryType : String) (options : List String)
deriving DecidableEq, Repr

/-- `CandidateExtractor.extract` (lines 105-111): dict lookup, raising on an
unknown query type. -/
def extract (msgs : List Message) (queryType : String) : Except ExtractError (List Candidate) :=
  match extractors.lookup queryType with
  | some f => Except.ok (f msgs)
  | none => Except.error (ExtractError.unknownQueryType queryType extractorKeys)

/-! ## Ordering by originating message (for the pipeline-order invariant) -/

/-- Candidate `c` carries the `timestamp`/`sender`/`date`/`time` fields of the
message at index `i` (every candidate shape copies these four). -/
def OriginAt (msgs : List Message) (c : Candidate) (i : Nat) : Prop :=
  ∃ m, msgs.get? i = some m ∧ c.timestamp = m.timestamp ∧ c.sender = m.sender ∧
    c.date = m.date ∧ c.time = m.time

/-- The candidates originate, in list order, from messages at nondecreasing
indices at or after `lo` — i.e. the sequence never reorders its sources. -/
inductive OrderedFrom (msgs : List Message) : Nat → List Candidate → Prop
  | nil (lo : Nat) : OrderedFrom msgs lo []
  | cons (lo i : Nat) (c : Candidate) (cs : List Candidate) :
      lo ≤ i → OriginAt msgs c i → OrderedFrom msgs i cs →
      OrderedFrom msgs lo (c :: cs)

/-- Rebuild a `Message` from the fields a per-message candidate copies
(`content` is present on every non-URL candidate). -/
def candMsg (c : Candidate) : Message :=
  { timestamp := c.timestamp, sender := c.sender, content := c.content.getD [],
    date := c.date, time := c.time }

/-- Well-formed block list: each block is one marker line plus its
(marker-free) continuation lines. -/
def BlocksWF (blocks : List (List Char × List (List Char))) : Bool :=
  blocks.all (fun b => isMarker b.1 && b.2.all (fun l => !isMarker l))

/-- The message a block parses to. -/
def blockMsg? (b : List Char × List (List Char)) : Option Message :=
  (startMessage? b.1).map (fun m0 => b.2.foldl appendCont m0)

/-- A concrete two-URL message shared by the URL-extraction theorems. -/
def urlCexMsg : Message :=
  { timestamp := "01/02/2024, 09:15".data, sender := "Dana".data,
    content := "a http://a.com\nb http://b.com".data,
    date := "01/02/2024".data, time := "09:15".data }

/-! # Theorems -/

theorem length_takeWhile_le (p : Char → Bool) (l : List Char) :
    (l.takeWhile p).length ≤ l.length := by
  induction l with
  | nil => simp [List.takeWhile]
  | cons c rest ih =>
    simp only [List.takeWhile]
    cases p c <;> simp <;> omega

/-! ## Parser lemmas -/

theorem isMarker_eq_isSome_startMessage (line : List Char) :
    isMarker line = (startMessage? line).isSome := by
  simp only [isMarker, startMessage?]
  cases matchTimestamp line with
  | none => rfl
  | some v =>
    cases hs : senderMatch (pyStrip v.2) <;> simp [hs]

theorem startMessage?_eq_none (line : List Char) (h : isMarker line = false) :
    startMessage? line = none := by
  rw [isMarker_eq_isSome_startMessage] at h
  cases hs : startMessage? line with
  | none => rfl
  | some m => rw [hs] at h; simp at h

theorem parseAux_length (lines : List (List Char)) :
    ∀ cur, (parseAux cur lines).length =
      cur.toList.length + lines.countP isMarker := by
  induction lines with
  | nil => intro cur; simp [parseAux, List.countP_nil]
  | cons line rest ih =>
    intro cur
    rw [List.countP_cons]
    simp only [parseAux]
    cases hs : startMessage? line with
    | some m =>
      have hm : isMarker line = true := by
        rw [isMarker_eq_isSome_startMessage, hs]; rfl
      simp only [List.length_append, ih, hm, if_true]
      cases cur <;> simp [Option.toList] <;> omega
    | none =>
      have hm : isMarker line = false := by
        rw [isMarker_eq_isSome_startMessage, hs]; rfl
      cases cur with
      | some m => simp [hm, ih]
      | none => simp [hm, ih]

theorem parse_length (lines : List (List Char)) :
    (parse lines).length = lines.countP isMarker := by
  simpa [parse, Option.toList] using parseAux_length lines none

theorem parseAux_none_skip (pre rest : List (List Char))
    (h : ∀ l ∈ pre, isMarker l = false) :
    parseAux none (pre ++ rest) = parseAux none rest := by
  induction pre with
  | nil => rfl
  | cons l pre' ih =>
    have hl : isMarker l = false := h l (by simp)
    simp only [List.cons_append, parseAux, startMessage?_eq_none l hl]
    exact ih (fun x hx => h x (by simp [hx]))

theorem parseAux_conts (conts : List (List Char)) :
    ∀ (m : Message) (rest : List (List Char)),
      (∀ l ∈ conts, isMarker l = false) →
      parseAux (some m) (conts ++ rest) =
        parseAux (some (conts.foldl appendCont m)) rest := by
  induction conts with
  | nil => intro m rest _; rfl
  | cons l conts' ih =>
    intro m rest h
    have hl : isMarker l = false := h l (by simp)
    simp only [List.cons_append, parseAux, startMessage?_eq_none l hl, List.foldl_cons]
    exact ih (appendCont m l) rest (fun x hx => h x (by simp [hx]))

theorem parseAux_some_blocks (blocks : List (List Char × List (List Char))) :
    ∀ (m : Message), BlocksWF blocks = true →
      parseAux (some m) (blocks.flatMap (fun b => b.1 :: b.2)) =
        m :: blocks.filterMap blockMsg? := by
  induction blocks with
  | nil => intro m _; rfl
  | cons b bs ih =>
    intro m hwf
    rw [BlocksWF, List.all_cons, Bool.and_eq_true, Bool.and_eq_true] at hwf
    obtain ⟨⟨hb1, hball⟩, hrest⟩ := hwf
    have hb2 : ∀ l ∈ b.2, isMarker l = false := by
      intro l hl
      have := List.all_eq_true.mp hball l hl
      simpa using this
    obtain ⟨m0, hm0⟩ := Option.isSome_iff_exists.mp
      (by rw [← isMarker_eq_isSome_startMessage]; exact hb1)
    have hfm : ((b :: bs).flatMap (fun x => x.1 :: x.2)) =
        b.1 :: (b.2 ++ bs.flatMap (fun x => x.1 :: x.2)) := by
      simp [List.flatMap_cons]
    rw [hfm]
    simp only [parseAux, hm0]
    rw [parseAux_conts b.2 m0 _ hb2]
    rw [ih (b.2.foldl appendCont m0) hrest]
    simp [List.filterMap_cons, blockMsg?, hm0]

theorem parseAux_none_blocks (blocks : List (List Char × List (List Char)))
    (hwf : BlocksWF blocks = true) :
    parseAux none (blocks.flatMap (fun b => b.1 :: b.2)) =
      blocks.filterMap blockMsg? := by
  cases blocks with
  | nil => rfl
  | cons b bs =>
    rw [BlocksWF, List.all_cons, Bool.and_eq_true, Bool.and_eq_true] at hwf
    obtain ⟨⟨hb1, hball⟩, hrest⟩ := hwf
    have hb2 : ∀ l ∈ b.2, isMarker l = false := by
      intro l hl
      have := List.all_eq_true.mp hball l hl
      simpa using this
    obtain ⟨m0, hm0⟩ := Option.isSome_iff_exists.mp
      (by rw [← isMarker_eq_isSome_startMessage]; exact hb1)
    have hfm : ((b :: bs).flatMap (fun x => x.1 :: x.2)) =
        b.1 :: (b.2 ++ bs.flatMap (fun x => x.1 :: x.2)) := by
      simp [List.flatMap_cons]
    rw [hfm]
    simp only [parseAux, hm0]
    rw [parseAux_conts b.2 m0 _ hb2]
    rw [parseAux_some_blocks bs (b.2.foldl appendCont m0) hrest]
    simp [List.filterMap_cons, blockMsg?, hm0]

/-- Claim C1, amended.  Decompose any transcript into a (marker-free)
preamble and blocks of one marker line with its continuation lines: the
parser emits exactly one Message per marker line (the count equality of the
claim, also stated unconditionally as the second conjunct), each block's
non-marker lines are folded into exactly that block's message, and the
preamble's non-marker lines are dropped — they are accounted for in no
message, which is where the original claim fails (see
`parse_preamble_line_unaccounted`). -/
theorem parse_block_decomposition
    (pre : List (List Char)) (blocks : List (List Char × List (List Char)))
    (hpre : ∀ l ∈ pre, isMarker l = false) (hwf : BlocksWF blocks = true) :
    parse (pre ++ blocks.flatMap (fun b => b.1 :: b.2)) =
      blocks.filterMap blockMsg? ∧
    (parse (pre ++ blocks.flatMap (fun b => b.1 :: b.2))).length =
      (pre ++ blocks.flatMap (fun b => b.1 :: b.2)).countP isMarker := by
  constructor
  · unfold parse
    rw [parseAux_none_skip pre _ hpre]
    exact parseAux_none_blocks blocks hwf
  · exact parse_length _

/-- Witness for `parse_block_decomposition` at a concrete transcript with a
preamble line, two blocks and one continuation line. -/
theorem parse_block_decomposition_witness :
    BlocksWF [("[01/02/2024, 09:15] Dana: hi".data, ["more text".data]),
              ("[01/02/2024, 09:16] Eve: yo".data, [])] = true ∧
    parse (["export header".data] ++
        [("[01/02/2024, 09:15] Dana: hi".data, ["more text".data]),
         ("[01/02/2024, 09:16] Eve: yo".data, ([] : List (List Char)))].flatMap
          (fun b => b.1 :: b.2)) =
      [("[01/02/2024, 09:15] Dana: hi".data, ["more text".data]),
       ("[01/02/2024, 09:16] Eve: yo".data, ([] : List (List Char)))].filterMap blockMsg? := by
  refine ⟨by decide, ?_⟩
  exact (parse_block_decomposition _ _ (by decide) (by decide)).1

/-- Claim C1, counterexample to the claim as stated: in the transcript below
the line `export header` matches no marker prefix, yet it is contained in no
emitted Message's content — the parser emits exactly one message, whose
content is `hi`. -/
theorem parse_preamble_line_unaccounted :
    isMarker "export header".data = false ∧
    parse ["export header".data, "[01/02/2024, 09:15] Dana: hi".data] =
      [{ timestamp := "01/02/2024, 09:15".data, sender := "Dana".data,
         content := "hi".data, date := "01/02/2024".data, time := "09:15".data }] ∧
    containsSub "export header".data "hi".data = false := by
  refine ⟨by decide, by decide, by decide⟩

/-! ## Claim C10: marker line ending in a bare `Name:` -/

theorem takeWhile_append_colon (name : List Char) (h : ':' ∉ name) :
    (name ++ [':']).takeWhile (fun c => c != ':') = name := by
  induction name with
  | nil => simp [List.takeWhile]
  | cons c rest ih =>
    have hc : c ≠ ':' := fun hc => h (by simp [hc])
    simp only [List.cons_append, List.takeWhile_cons]
    simp [hc, ih (fun hm => h (by simp [hm]))]

theorem senderMatch_trailing_colon (name : List Char) (h : ':' ∉ name) :
    senderMatch (name ++ [':']) = none := by
  simp only [senderMatch, takeWhile_append_colon name h]
  cases hname : name with
  | nil => simp
  | cons c rest =>
    rw [← hname]
    have hne : name.isEmpty = false := by rw [hname]; rfl
    simp only [hne, Bool.false_eq_true, if_false]
    have hdrop : (name ++ [':']).drop name.length = [':'] := by
      rw [List.drop_append_of_le_length (le_refl _)]
      simp
    rw [hdrop]
    rfl

/-- Claim C10: a marker line whose stripped remainder is a (colon-free) name
followed by a colon with nothing after it does not split out a sender: the
regex `^([^:]+?):\s*(.+)` needs at least one character after the colon, so the
message gets the system sentinel as `sender` and the entire remainder —
name and colon included — as `content`. -/
theorem parse_trailing_colon_system_message
    (line ts rest name : List Char)
    (hts : matchTimestamp line = some (ts, rest))
    (hstrip : pyStrip rest = name ++ [':'])
    (hname : ':' ∉ name) :
    parse [line] =
      [{ timestamp := ts, sender := "SYSTEM".data, content := name ++ [':'],
         date := extractDate ts, time := extractTime ts }] := by
  have hstart : startMessage? line =
      some { timestamp := ts, sender := "SYSTEM".data, content := name ++ [':'],
             date := extractDate ts, time := extractTime ts } := by
    simp only [startMessage?, hts, hstrip, senderMatch_trailing_colon name hname]
  simp [parse, parseAux, hstart, Option.toList]

/-- Witness for `parse_trailing_colon_system_message` at the concrete line
`[01/02/2024, 09:15] Dana:`. -/
theorem parse_trailing_colon_system_message_witness :
    matchTimestamp "[01/02/2024, 09:15] Dana:".data =
      some ("01/02/2024, 09:15".data, " Dana:".data) ∧
    pyStrip " Dana:".data = "Dana".data ++ [':'] ∧
    ':' ∉ "Dana".data ∧
    parse ["[01/02/2024, 09:15] Dana:".data] =
      [{ timestamp := "01/02/2024, 09:15".data, sender := "SYSTEM".data,
         content := "Dana".data ++ [':'],
         date := extractDate "01/02/2024, 09:15".data,
         time := extractTime "01/02/2024, 09:15".data }] := by
  refine ⟨by decide, by decide, by decide, ?_⟩
  exact parse_trailing_colon_system_message "[01/02/2024, 09:15] Dana:".data
    "01/02/2024, 09:15".data " Dana:".data "Dana".data
    (by decide) (by decide) (by decide)

/-! ## DateKey lemmas and claims C9, C2 -/

theorem strptimeDMY_eq_none_of_ymd (s : List Char) (d : Date)
    (h : strptimeYMD s = some d) : strptimeDMY s = none := by
  simp only [strptimeYMD] at h
  split at h
  · rename_i r2 heq
    simp only [strptimeDMY]
    rw [heq]
    rfl
  · exact absurd h (by simp)

theorem parseDate_of_dmy (s : List Char) (d : Date)
    (h : strptimeDMY s = some d) : parseDate s = d := by
  simp [parseDate, h]

theorem parseDate_of_ymd (s : List Char) (d : Date)
    (h : strptimeYMD s = some d) : parseDate s = d := by
  simp [parseDate, strptimeDMY_eq_none_of_ymd s d h, h]

/-- Claim C9: for two date strings both parsed by the `DD/MM/YYYY` branch or
both by the `YYYY-MM-DD` branch, the earlier calendar date gets the strictly
smaller key, so sorting by `parseDate` sorts such dates in ascending calendar
order.  (The parsed `Date` is the calendar date, and `dateLt` is `datetime`
comparison.) -/
theorem dateKey_calendar_order (s1 s2 : List Char) (d1 d2 : Date)
    (h : (strptimeDMY s1 = some d1 ∧ strptimeDMY s2 = some d2) ∨
         (strptimeYMD s1 = some d1 ∧ strptimeYMD s2 = some d2))
    (hlt : dateLt d1 d2 = true) :
    dateLt (parseDate s1) (parseDate s2) = true := by
  rcases h with ⟨h1, h2⟩ | ⟨h1, h2⟩
  · rw [parseDate_of_dmy s1 d1 h1, parseDate_of_dmy s2 d2 h2]
    exact hlt
  · rw [parseDate_of_ymd s1 d1 h1, parseDate_of_ymd s2 d2 h2]
    exact hlt

/-- Witness for `dateKey_calendar_order`: the spec's own example
`DateKey("31/01/2024") < DateKey("01/02/2024")`. -/
theorem dateKey_calendar_order_witness :
    strptimeDMY "31/01/2024".data = some ⟨2024, 1, 31⟩ ∧
    strptimeDMY "01/02/2024".data = some ⟨2024, 2, 1⟩ ∧
    dateLt (parseDate "31/01/2024".data) (parseDate "01/02/2024".data) = true := by
  refine ⟨by decide, by decide, ?_⟩
  exact dateKey_calendar_order _ _ ⟨2024, 1, 31⟩ ⟨2024, 2, 1⟩
    (Or.inl ⟨by decide, by decide⟩) (by decide)

/-- Claim C2, counterexample to the claim as stated: `31/12/2150` parses as a
valid `DD/MM/YYYY` date, yet its key is strictly greater than the sentinel
returned for the unparseable `not-a-date` — the sentinel is not greater than
the key of every parseable date. -/
theorem dateKey_sentinel_not_greatest :
    strptimeDMY "not-a-date".data = none ∧
    strptimeYMD "not-a-date".data = none ∧
    parseDate "not-a-date".data = farFuture ∧
    strptimeDMY "31/12/2150".data = some ⟨2150, 12, 31⟩ ∧
    dateLt (parseDate "not-a-date".data) (parseDate "31/12/2150".data) = true := by
  refine ⟨by decide, by decide, by decide, by decide, by decide⟩

/-- Claim C2, amended: `_parse_date` is total (the bare `except:` handlers
make every input a handled case, modelled here by `parseDate` being a total
function); every string that parses as neither `DD/MM/YYYY` nor `YYYY-MM-DD`
is mapped to the one fixed sentinel `datetime(2099, 12, 31)`, and that
sentinel compares strictly greater than the key of any string that parses to
a calendar date earlier than 2099-12-31 (dates on or after the sentinel date
— impossible in a real chat export's past-dated transcript — compare at or
above it, see `dateKey_sentinel_not_greatest`). -/
theorem dateKey_sentinel (s t : List Char) (dt : Date)
    (hs1 : strptimeDMY s = none) (hs2 : strptimeYMD s = none) :
    parseDate s = farFuture ∧
    ((strptimeDMY t = some dt ∨ strptimeYMD t = some dt) →
      dateLt dt farFuture = true →
      dateLt (parseDate t) (parseDate s) = true) := by
  have hsent : parseDate s = farFuture := by simp [parseDate, hs1, hs2]
  refine ⟨hsent, ?_⟩
  intro hp hlt
  rw [hsent]
  rcases hp with h | h
  · rw [parseDate_of_dmy t dt h]; exact hlt
  · rw [parseDate_of_ymd t dt h]; exact hlt

/-- Witness for `dateKey_sentinel`: `not-a-date` gets the sentinel and sorts
after the valid date `31/01/2024`. -/
theorem dateKey_sentinel_witness :
    strptimeDMY "not-a-date".data = none ∧
    strptimeYMD "not-a-date".data = none ∧
    parseDate "not-a-date".data = farFuture ∧
    dateLt (parseDate "31/01/2024".data) (parseDate "not-a-date".data) = true := by
  refine ⟨by decide, by decide, ?_, ?_⟩
  · exact (dateKey_sentinel "not-a-date".data "31/01/2024".data ⟨2024, 1, 31⟩
      (by decide) (by decide)).1
  · exact (dateKey_sentinel "not-a-date".data "31/01/2024".data ⟨2024, 1, 31⟩
      (by decide) (by decide)).2 (Or.inl (by decide)) (by decide)

/-! ## Claim C3: unknown-category error and dispatch -/

theorem extractors_lookup_none (q : String) (h : q ∉ extractorKeys) :
    extractors.lookup q = none := by
  have h' : ¬q = "actions" ∧ ¬q = "urls" ∧ ¬q = "decisions" ∧ ¬q = "questions" ∧
      ¬q = "meetings" ∧ ¬q = "deadlines" ∧ ¬q = "assignments" ∧ ¬q = "checkins" := by
    simpa [extractorKeys, extractors] using h
  have e1 : (q == "actions") = false := beq_eq_false_iff_ne.mpr h'.1
  have e2 : (q == "urls") = false := beq_eq_false_iff_ne.mpr h'.2.1
  have e3 : (q == "decisions") = false := beq_eq_false_iff_ne.mpr h'.2.2.1
  have e4 : (q == "questions") = false := beq_eq_false_iff_ne.mpr h'.2.2.2.1
  have e5 : (q == "meetings") = false := beq_eq_false_iff_ne.mpr h'.2.2.2.2.1
  have e6 : (q == "deadlines") = false := beq_eq_false_iff_ne.mpr h'.2.2.2.2.2.1
  have e7 : (q == "assignments") = false := beq_eq_false_iff_ne.mpr h'.2.2.2.2.2.2.1
  have e8 : (q == "checkins") = false := beq_eq_false_iff_ne.mpr h'.2.2.2.2.2.2.2
  simp [extractors, List.lookup, e1, e2, e3, e4, e5, e6, e7, e8]

/-- Claim C3: a query type outside the eight dict keys raises `ValueError`
carrying the unknown name and the list of valid keys (never an `ok` result,
empty or otherwise), and each of the eight known names dispatches to its own
rule set. -/
theorem extract_unknown_category (msgs : List Message) (q : String) :
    (q ∉ extractorKeys →
      extract msgs q = Except.error (ExtractError.unknownQueryType q extractorKeys) ∧
      ∀ cs, extract msgs q ≠ Except.ok cs) ∧
    (extract msgs "actions" = Except.ok (extractActions msgs) ∧
     extract msgs "urls" = Except.ok (extractUrls msgs) ∧
     extract msgs "decisions" = Except.ok (extractDecisions msgs) ∧
     extract msgs "questions" = Except.ok (extractQuestions msgs) ∧
     extract msgs "meetings" = Except.ok (extractMeetings msgs) ∧
     extract msgs "deadlines" = Except.ok (extractDeadlines msgs) ∧
     extract msgs "assignments" = Except.ok (extractAssignments msgs) ∧
     extract msgs "checkins" = Except.ok (extractCheckins msgs)) := by
  constructor
  · intro h
    have hl : extractors.lookup q = none := extractors_lookup_none q h
    constructor
    · simp [extract, hl]
    · intro cs hcs
      simp [extract, hl] at hcs
  · exact ⟨rfl, rfl, rfl, rfl, rfl, rfl, rfl, rfl⟩

/-- Witness for `extract_unknown_category` at the unknown name `bogus` and
the known name `actions`. -/
theorem extract_unknown_category_witness :
    "bogus" ∉ extractorKeys ∧
    extract [] "bogus" = Except.error (ExtractError.unknownQueryType "bogus" extractorKeys) ∧
    extract [] "actions" = Except.ok (extractActions []) := by
  refine ⟨by decide, ?_, ?_⟩
  · exact ((extract_unknown_category [] "bogus").1 (by decide)).1
  · exact (extract_unknown_category [] "actions").2.1

/-! ## Claim C5: actions extraction skips system-sender messages -/

/-- Claim C5: a message whose `sender` is the system sentinel contributes no
actions candidate, wherever it sits in the sequence and whatever its content
(no hypothesis on the content is needed: the `continue` runs before pattern
testing). -/
theorem extract_actions_skips_system (l1 : List Message) (m : Message)
    (l2 : List Message) (h : m.sender = "SYSTEM".data) :
    extractActions (l1 ++ m :: l2) = extractActions (l1 ++ l2) := by
  have hnone : actionRule m = none := by simp [actionRule, h]
  simp [extractActions, List.filterMap_append, List.filterMap_cons, hnone]

/-- Witness for `extract_actions_skips_system`: a system message whose content
matches the `please` action pattern still yields no candidate. -/
theorem extract_actions_skips_system_witness :
    ({ timestamp := "01/02/2024, 09:15".data, sender := "SYSTEM".data,
       content := "please review the doc".data, date := "01/02/2024".data,
       time := "09:15".data } : Message).sender = "SYSTEM".data ∧
    (firstMatch actionPatterns
        (toLowerPy "please review the doc".data)).isSome = true ∧
    extractActions ([] ++
        ({ timestamp := "01/02/2024, 09:15".data, sender := "SYSTEM".data,
           content := "please review the doc".data, date := "01/02/2024".data,
           time := "09:15".data } : Message) :: []) =
      extractActions ([] ++ []) := by
  refine ⟨rfl, by decide, ?_⟩
  exact extract_actions_skips_system [] _ [] rfl

/-! ## Claim C6: check-ins need keyword and score together -/

/-- Claim C6: a message yields a check-in candidate only when its lowercased
content both contains one of the check-in/mood keywords as a literal
substring and matches the numeric score pattern; with only one of the two it
contributes nothing, and with both the candidate's `score` is the digit
capture group of the first score-pattern match, kept as a string. -/
theorem extract_checkins_cooccurrence (l1 : List Message) (m : Message)
    (l2 : List Message) (sc : List Char) :
    ((hasCheckinKeyword (toLowerPy m.content) = false ∨
        searchScore (toLowerPy m.content) = none) →
      extractCheckins (l1 ++ m :: l2) = extractCheckins (l1 ++ l2)) ∧
    (hasCheckinKeyword (toLowerPy m.content) = true →
      searchScore (toLowerPy m.content) = some sc →
      extractCheckins (l1 ++ m :: l2) =
        extractCheckins l1 ++ mkCheckinCand m sc :: extractCheckins l2 ∧
      (mkCheckinCand m sc).score = some sc) := by
  constructor
  · intro h
    have hnone : checkinRule m = none := by
      rcases h with h | h
      · simp [checkinRule, h]
      · simp [checkinRule, h]
    simp [extractCheckins, List.filterMap_append, List.filterMap_cons, hnone]
  · intro hk hs
    have hsome : checkinRule m = some (mkCheckinCand m sc) := by
      simp [checkinRule, hk, hs]
    refine ⟨?_, rfl⟩
    simp [extractCheckins, List.filterMap_append, List.filterMap_cons, hsome]

/-- Witness for `extract_checkins_cooccurrence`: keyword-only and score-only
messages yield nothing; a message with both yields one candidate scoring `8`. -/
theorem extract_checkins_cooccurrence_witness :
    hasCheckinKeyword (toLowerPy "my mood is great".data) = true ∧
    searchScore (toLowerPy "my mood is great".data) = none ∧
    extractCheckins
        [({ timestamp := "01/02/2024, 09:15".data, sender := "Dana".data,
             content := "my mood is great".data, date := "01/02/2024".data,
             time := "09:15".data } : Message)] = extractCheckins ([] ++ []) ∧
    hasCheckinKeyword (toLowerPy "feeling 8/10".data) = false ∧
    (searchScore (toLowerPy "feeling 8/10".data)).isSome = true ∧
    extractCheckins
        [({ timestamp := "01/02/2024, 09:15".data, sender := "Dana".data,
             content := "feeling 8/10".data, date := "01/02/2024".data,
             time := "09:15".data } : Message)] = extractCheckins ([] ++ []) ∧
    extractCheckins
        [({ timestamp := "01/02/2024, 09:15".data, sender := "Dana".data,
             content := "daily check in - 8".data, date := "01/02/2024".data,
             time := "09:15".data } : Message)] =
      extractCheckins [] ++ mkCheckinCand
        ({ timestamp := "01/02/2024, 09:15".data, sender := "Dana".data,
           content := "daily check in - 8".data, date := "01/02/2024".data,
           time := "09:15".data } : Message) "8".data :: extractCheckins [] := by
  refine ⟨by decide, by decide, ?_, by decide, by decide, ?_, ?_⟩
  · exact (extract_checkins_cooccurrence [] _ [] []).1 (Or.inr (by decide))
  · exact (extract_checkins_cooccurrence [] _ [] []).1 (Or.inl (by decide))
  · exact ((extract_checkins_cooccurrence [] _ [] "8".data).2 (by decide) (by decide)).1

/-! ## Claims C7 and C8: URL candidates -/

/-- Claim C7: a message whose content contains exactly two distinct URL
tokens contributes exactly two candidates — one per URL occurrence — whose
`url` fields are the two distinct tokens in order, and whose
`timestamp`/`sender`/`date`/`time` all equal the originating message's; the
full extractor output is the in-order concatenation of these per-message
contributions. -/
theorem extract_urls_two_candidates (msgs : List Message) (i : Nat) (m : Message)
    (u1 u2 : List Char) (hm : msgs.get? i = some m)
    (hu : findUrls m.content = [u1, u2]) (hne : u1 ≠ u2) :
    (urlCandsAt msgs i).length = 2 ∧
    (urlCandsAt msgs i).map Candidate.url = [some u1, some u2] ∧
    some u1 ≠ some u2 ∧
    (∀ c ∈ urlCandsAt msgs i, c.timestamp = m.timestamp ∧ c.sender = m.sender ∧
      c.date = m.date ∧ c.time = m.time) ∧
    extractUrls msgs = (List.range msgs.length).flatMap (urlCandsAt msgs) := by
  have hc : urlCandsAt msgs i = [u1, u2].map (fun url =>
      { timestamp := m.timestamp, date := m.date, time := m.time,
        sender := m.sender, url := some url,
        description := some (descriptionFor m.content u1),
        fullMessage := some m.content,
        contextBefore := (List.range' (i - 2) (i - (i - 2))).filterMap
          (fun j => (msgs.get? j).bind (fun mj =>
            if mj.sender = "SYSTEM".data then none
            else some ⟨mj.sender, mj.content.take 200, mj.time⟩)),
        contextAfter := (List.range' (i + 1) (min msgs.length (i + 3) - (i + 1))).filterMap
          (fun j => (msgs.get? j).bind (fun mj =>
            if mj.sender = "SYSTEM".data then none
            else some ⟨mj.sender, mj.content.take 200, mj.time⟩)),
        ctype := "url".data }) := by
    simp only [urlCandsAt, hm]
    rw [hu]
  refine ⟨?_, ?_, by simp [hne], ?_, rfl⟩
  · rw [hc]; rfl
  · rw [hc]; rfl
  · rw [hc]
    intro c hc'
    simp only [List.map_cons, List.map_nil, List.mem_cons, List.not_mem_nil,
      or_false] at hc'
    rcases hc' with h | h <;> subst h <;> exact ⟨rfl, rfl, rfl, rfl⟩

/-- Witness for `extract_urls_two_candidates` at `urlCexMsg`. -/
theorem extract_urls_two_candidates_witness :
    ([urlCexMsg].get? 0 = some urlCexMsg) ∧
    findUrls urlCexMsg.content = ["http://a.com".data, "http://b.com".data] ∧
    "http://a.com".data ≠ "http://b.com".data ∧
    (urlCandsAt [urlCexMsg] 0).length = 2 ∧
    (urlCandsAt [urlCexMsg] 0).map Candidate.url =
      [some "http://a.com".data, some "http://b.com".data] := by
  refine ⟨rfl, by decide, by decide, ?_, ?_⟩
  · exact (extract_urls_two_candidates [urlCexMsg] 0 urlCexMsg
      "http://a.com".data "http://b.com".data rfl (by decide) (by decide)).1
  · exact (extract_urls_two_candidates [urlCexMsg] 0 urlCexMsg
      "http://a.com".data "http://b.com".data rfl (by decide) (by decide)).2.1

/-- Claim C8, counterexample to the claim as stated: in `urlCexMsg` the
second candidate's URL is `http://b.com`, whose containing line minus that
URL and stripped is `b`; but the candidate's stored `description` is `a`,
computed once from the message's first URL `http://a.com`. -/
theorem url_description_not_per_candidate :
    (extractUrls [urlCexMsg]).map Candidate.url =
      [some "http://a.com".data, some "http://b.com".data] ∧
    (extractUrls [urlCexMsg]).map Candidate.description =
      [some "a".data, some "a".data] ∧
    descriptionFor urlCexMsg.content "http://b.com".data = "b".data ∧
    "a".data ≠ "b".data := by
  refine ⟨by decide, by decide, by decide, by decide⟩

/-- Claim C8, amended: every URL candidate of a message carries the same
`description`, computed from the message's FIRST URL — the first content
line containing that first URL, with every occurrence of that first URL
removed and then stripped.  For the candidate of the first URL itself (and
so for every candidate of a single-URL message) this is the claim's own
description; for later URLs it need not be (see
`url_description_not_per_candidate`). -/
theorem extract_urls_description_shared (msgs : List Message) (i : Nat)
    (m : Message) (u0 : List Char) (us : List (List Char))
    (hm : msgs.get? i = some m) (hu : findUrls m.content = u0 :: us) :
    (∀ c ∈ urlCandsAt msgs i, c.description = some (descriptionFor m.content u0)) ∧
    extractUrls msgs = (List.range msgs.length).flatMap (urlCandsAt msgs) := by
  refine ⟨?_, rfl⟩
  intro c hc
  simp only [urlCandsAt, hm, hu] at hc
  obtain ⟨u, hu', hc'⟩ := List.mem_map.mp hc
  subst hc'
  rfl

/-- Witness for `extract_urls_description_shared` at `urlCexMsg`: its second
candidate (the `http://b.com` one) carries the description derived from the
first URL `http://a.com`. -/
theorem extract_urls_description_shared_witness :
    ((urlCandsAt [urlCexMsg] 0).get? 1).map Candidate.description =
      some (some (descriptionFor urlCexMsg.content "http://a.com".data)) := by
  have hmem : ∀ c ∈ urlCandsAt [urlCexMsg] 0,
      c.description = some (descriptionFor urlCexMsg.content "http://a.com".data) :=
    (extract_urls_description_shared [urlCexMsg] 0 urlCexMsg
      "http://a.com".data ["http://b.com".data] rfl (by decide)).1
  cases hg : (urlCandsAt [urlCexMsg] 0).get? 1 with
  | none => exact absurd hg (by decide)
  | some c =>
    have hc : c ∈ urlCandsAt [urlCexMsg] 0 := List.get?_mem hg
    rw [Option.map_some']
    rw [hmem c hc]

/-! ## Claim C4: candidates keep input order -/

theorem orderedFrom_mono (msgs : List Message) {i j : Nat} (hij : i ≤ j)
    {l : List Candidate} (h : OrderedFrom msgs j l) : OrderedFrom msgs i l := by
  cases h with
  | nil => exact .nil i
  | cons _ k c cs hk ho hrest => exact .cons i k c cs (le_trans hij hk) ho hrest

theorem orderedFrom_append (msgs : List Message) (i : Nat)
    (b rest : List Candidate) (hb : ∀ c ∈ b, OriginAt msgs c i)
    (hrest : OrderedFrom msgs i rest) : OrderedFrom msgs i (b ++ rest) := by
  induction b with
  | nil => simpa using hrest
  | cons c b' ih =>
    exact .cons i i c _ (le_refl i) (hb c (by simp))
      (ih (fun x hx => hb x (by simp [hx])))

theorem orderedFrom_filterMap (msgs : List Message) (f : Message → Option Candidate)
    (hf : ∀ m c, f m = some c → candMsg c = m) :
    ∀ (v : List Message) (lo : Nat), msgs.drop lo = v →
      OrderedFrom msgs lo (v.filterMap f) := by
  intro v
  induction v with
  | nil => intro lo _; exact .nil lo
  | cons m v' ih =>
    intro lo hdrop
    have hget : msgs.get? lo = some m := by
      have h0 : (msgs.drop lo).get? 0 = some m := by rw [hdrop]; rfl
      rwa [List.get?_drop, Nat.add_zero] at h0
    have hdrop' : msgs.drop (lo + 1) = v' := by
      have : msgs.drop (lo + 1) = (msgs.drop lo).drop 1 := by
        rw [List.drop_drop, Nat.add_comm]
      rw [this, hdrop]
      rfl
    cases hfm : f m with
    | none =>
      rw [List.filterMap_cons_none hfm]
      exact orderedFrom_mono msgs (Nat.le_succ lo) (ih (lo + 1) hdrop')
    | some c =>
      rw [List.filterMap_cons_some hfm]
      have hcm := hf m c hfm
      refine .cons lo lo c _ (le_refl lo)
        ⟨m, hget, by rw [← hcm]; rfl, by rw [← hcm]; rfl, by rw [← hcm]; rfl,
          by rw [← hcm]; rfl⟩
        (orderedFrom_mono msgs (Nat.le_succ lo) (ih (lo + 1) hdrop'))

theorem orderedFrom_flatMap (msgs : List Message) (g : Nat → List Candidate)
    (hg : ∀ j c, c ∈ g j → OriginAt msgs c j) :
    ∀ (n lo : Nat), OrderedFrom msgs lo ((List.range' lo n).flatMap g) := by
  intro n
  induction n with
  | zero => intro lo; exact .nil lo
  | succ n' ih =>
    intro lo
    rw [List.range'_succ, List.flatMap_cons]
    exact orderedFrom_append msgs lo (g lo) _ (fun c hc => hg lo c hc)
      (orderedFrom_mono msgs (Nat.le_succ lo) (ih (lo + 1)))

theorem urlCandsAt_origin (msgs : List Message) :
    ∀ j c, c ∈ urlCandsAt msgs j → OriginAt msgs c j := by
  intro j c hc
  simp only [urlCandsAt] at hc
  cases hget : msgs.get? j with
  | none => simp only [hget] at hc; simp at hc
  | some m =>
    simp only [hget] at hc
    cases hfind : findUrls m.content with
    | nil => simp only [hfind] at hc; simp at hc
    | cons u0 us =>
      simp only [hfind] at hc
      obtain ⟨u, hu, hc'⟩ := List.mem_map.mp hc
      subst hc'
      exact ⟨m, hget, rfl, rfl, rfl, rfl⟩

theorem filterMap_map_candMsg_sublist (f : Message → Option Candidate)
    (hf : ∀ m c, f m = some c → candMsg c = m) :
    ∀ msgs : List Message, List.Sublist ((msgs.filterMap f).map candMsg) msgs := by
  intro msgs
  induction msgs with
  | nil => simp
  | cons m rest ih =>
    cases hfm : f m with
    | none =>
      rw [List.filterMap_cons_none hfm]
      exact ih.cons m
    | some c =>
      rw [List.filterMap_cons_some hfm]
      simp only [List.map_cons]
      rw [hf m c hfm]
      exact ih.cons₂ m

theorem actionRule_candMsg : ∀ m c, actionRule m = some c → candMsg c = m := by
  intro m c h
  simp only [actionRule] at h
  split at h
  · exact absurd h (by simp)
  · obtain ⟨p, hp, hc⟩ := Option.map_eq_some'.mp h
    subst hc
    rfl

theorem decisionRule_candMsg : ∀ m c, decisionRule m = some c → candMsg c = m := by
  intro m c h
  obtain ⟨p, hp, hc⟩ := Option.map_eq_some'.mp h
  subst hc
  rfl

theorem questionRule_candMsg : ∀ m c, questionRule m = some c → candMsg c = m := by
  intro m c h
  simp only [questionRule] at h
  split at h
  · injection h with h'; subst h'; rfl
  · exact absurd h (by simp)

theorem meetingRule_candMsg : ∀ m c, meetingRule m = some c → candMsg c = m := by
  intro m c h
  obtain ⟨p, hp, hc⟩ := Option.map_eq_some'.mp h
  subst hc
  rfl

theorem deadlineRule_candMsg : ∀ m c, deadlineRule m = some c → candMsg c = m := by
  intro m c h
  obtain ⟨p, hp, hc⟩ := Option.map_eq_some'.mp h
  subst hc
  rfl

theorem assignmentRule_candMsg : ∀ m c, assignmentRule m = some c → candMsg c = m := by
  intro m c h
  simp only [assignmentRule] at h
  split at h
  · injection h with h'; subst h'; rfl
  · exact absurd h (by simp)

theorem checkinRule_candMsg : ∀ m c, checkinRule m = some c → candMsg c = m := by
  intro m c h
  simp only [checkinRule] at h
  split at h
  · split at h
    · injection h with h'; subst h'; rfl
    · exact absurd h (by simp)
  · exact absurd h (by simp)

/-- Claim C4: for every message sequence and every valid category, the
candidate sequence returned by `extract` lists its candidates in the order of
their originating messages — there is a nondecreasing assignment of source
indices whose message fields each candidate carries — and for the per-message
categories (every category but `urls`) the candidates, projected back to
their messages, form an order-preserving subsequence of the input. -/
theorem extract_preserves_order (msgs : List Message) (q : String)
    (cands : List Candidate) (h : extract msgs q = Except.ok cands) :
    OrderedFrom msgs 0 cands ∧
    (q ≠ "urls" → List.Sublist (cands.map candMsg) msgs) := by
  by_cases h1 : q = "actions"
  · subst h1
    have hd : extract msgs "actions" = Except.ok (extractActions msgs) := rfl
    rw [hd] at h
    injection h with h'
    subst h'
    refine ⟨?_, fun _ => ?_⟩
    · exact orderedFrom_filterMap msgs actionRule actionRule_candMsg msgs 0 rfl
    · exact filterMap_map_candMsg_sublist actionRule actionRule_candMsg msgs
  by_cases h2 : q = "urls"
  · subst h2
    have hd : extract msgs "urls" = Except.ok (extractUrls msgs) := rfl
    rw [hd] at h
    injection h with h'
    subst h'
    refine ⟨?_, fun hq => absurd rfl hq⟩
    show OrderedFrom msgs 0 (extractUrls msgs)
    have : extractUrls msgs = (List.range' 0 msgs.length).flatMap (urlCandsAt msgs) := by
      rw [extractUrls, List.range_eq_range']
    rw [this]
    exact orderedFrom_flatMap msgs (urlCandsAt msgs) (urlCandsAt_origin msgs)
      msgs.length 0
  by_cases h3 : q = "decisions"
  · subst h3
    have hd : extract msgs "decisions" = Except.ok (extractDecisions msgs) := rfl
    rw [hd] at h
    injection h with h'
    subst h'
    refine ⟨?_, fun _ => ?_⟩
    · exact orderedFrom_filterMap msgs decisionRule decisionRule_candMsg msgs 0 rfl
    · exact filterMap_map_candMsg_sublist decisionRule decisionRule_candMsg msgs
  by_cases h4 : q = "questions"
  · subst h4
    have hd : extract msgs "questions" = Except.ok (extractQuestions msgs) := rfl
    rw [hd] at h
    injection h with h'
    subst h'
    refine ⟨?_, fun _ => ?_⟩
    · exact orderedFrom_filterMap msgs questionRule questionRule_candMsg msgs 0 rfl
    · exact filterMap_map_candMsg_sublist questionRule questionRule_candMsg msgs
  by_cases h5 : q = "meetings"
  · subst h5
    have hd : extract msgs "meetings" = Except.ok (extractMeetings msgs) := rfl
    rw [hd] at h
    injection h with h'
    subst h'
    refine ⟨?_, fun _ => ?_⟩
    · exact orderedFrom_filterMap msgs meetingRule meetingRule_candMsg msgs 0 rfl
    · exact filterMap_map_candMsg_sublist meetingRule meetingRule_candMsg msgs
  by_cases h6 : q = "deadlines"
  · subst h6
    have hd : extract msgs "deadlines" = Except.ok (extractDeadlines msgs) := rfl
    rw [hd] at h
    injection h with h'
    subst h'
    refine ⟨?_, fun _ => ?_⟩
    · exact orderedFrom_filterMap msgs deadlineRule deadlineRule_candMsg msgs 0 rfl
    · exact filterMap_map_candMsg_sublist deadlineRule deadlineRule_candMsg msgs
  by_cases h7 : q = "assignments"
  · subst h7
    have hd : extract msgs "assignments" = Except.ok (extractAssignments msgs) := rfl
    rw [hd] at h
    injection h with h'
    subst h'
    refine ⟨?_, fun _ => ?_⟩
    · exact orderedFrom_filterMap msgs assignmentRule assignmentRule_candMsg msgs 0 rfl
    · exact filterMap_map_candMsg_sublist assignmentRule assignmentRule_candMsg msgs
  by_cases h8 : q = "checkins"
  · subst h8
    have hd : extract msgs "checkins" = Except.ok (extractCheckins msgs) := rfl
    rw [hd] at h
    injection h with h'
    subst h'
    refine ⟨?_, fun _ => ?_⟩
    · exact orderedFrom_filterMap msgs checkinRule checkinRule_candMsg msgs 0 rfl
    · exact filterMap_map_candMsg_sublist checkinRule checkinRule_candMsg msgs
  · have hnotin : q ∉ extractorKeys := by
      simp [extractorKeys, extractors, h1, h2, h3, h4, h5, h6, h7, h8]
    have hl : extractors.lookup q = none := extractors_lookup_none q hnotin
    simp [extract, hl] at h

/-- Witness for `extract_preserves_order`: a two-message transcript queried
for `actions` — the extraction succeeds and its output is ordered by origin
and projects to a subsequence of the input. -/
theorem extract_preserves_order_witness :
    extract [({ timestamp := "01/02/2024, 09:15".data, sender := "Dana".data,
                content := "please review the doc".data, date := "01/02/2024".data,
                time := "09:15".data } : Message),
             ({ timestamp := "01/02/2024, 09:16".data, sender := "Eve".data,
                content := "sounds good".data, date := "01/02/2024".data,
                time := "09:16".data } : Message)] "actions" =
      Except.ok (extractActions
        [({ timestamp := "01/02/2024, 09:15".data, sender := "Dana".data,
            content := "please review the doc".data, date := "01/02/2024".data,
            time := "09:15".data } : Message),
         ({ timestamp := "01/02/2024, 09:16".data, sender := "Eve".data,
            content := "sounds good".data, date := "01/02/2024".data,
            time := "09:16".data } : Message)]) ∧
    OrderedFrom
      [({ timestamp := "01/02/2024, 09:15".data, sender := "Dana".data,
          content := "please review the doc".data, date := "01/02/2024".data,
          time := "09:15".data } : Message),
       ({ timestamp := "01/02/2024, 09:16".data, sender := "Eve".data,
          content := "sounds good".data, date := "01/02/2024".data,
          time := "09:16".data } : Message)] 0
      (extractActions
        [({ timestamp := "01/02/2024, 09:15".data, sender := "Dana".data,
            content := "please review the doc".data, date := "01/02/2024".data,
            time := "09:15".data } : Message),
         ({ timestamp := "01/02/2024, 09:16".data, sender := "Eve".data,
            content := "sounds good".data, date := "01/02/2024".data,
            time := "09:16".data } : Message)]) := by
  refine ⟨rfl, ?_⟩
  exact (extract_preserves_order _ "actions" _ rfl).1
